import Mathlib

/-!
Shallow embedding of the TFT-Stock-Trader core: the risk validation gate
(`backend/services/risk_manager.py`) and the chronological backtest engine
(`backend/ml/backtesting/backtest_engine.py`).

Modelling conventions: Python floats become rationals, Python `None` becomes
`Option`, pandas frames become a list of column names plus a list of rows,
dates become naturals, and the Python dict of open positions (keyed by
ticker, insertion ordered) becomes an association list in insertion order.
Division follows Lean's convention `x / 0 = 0`; every division on the paths
the claims exercise is guarded exactly as in the source.  The source field
`risk_reward_ratio` is named `risk_reward` here; presentational fields
(messages, timestamps, audit note strings) are omitted.
-/

namespace TFT

/-! ### Risk manager (`backend/services/risk_manager.py`) -/

inductive SignalType
  | BUY
  | SELL
  | HOLD
  deriving DecidableEq, Repr

inductive RejectionReason
  | CONFIDENCE_TOO_LOW
  | POSITION_TOO_LARGE
  | RISK_TOO_LARGE
  | RISK_REWARD_UNFAVORABLE
  | MAX_POSITIONS_EXCEEDED
  | PORTFOLIO_IN_DRAWDOWN
  | INVALID_PRICE_LEVELS
  | MISSING_REQUIRED_FIELDS
  deriving DecidableEq, Repr

structure SignalValidationRequest where
  ticker : Option String
  signal_type : Option SignalType
  confidence : Option ℚ
  entry_price : Option ℚ
  target_price : Option ℚ
  stop_loss : Option ℚ
  deriving DecidableEq, Repr

structure PortfolioState where
  portfolio_value : ℚ
  current_positions : Nat
  portfolio_drawdown_pct : ℚ
  deriving DecidableEq, Repr

structure RiskValidationResult where
  passed : Bool
  rejection_reason : Option RejectionReason
  position_size_pct : ℚ
  position_size_dollars : ℚ
  risk_reward : ℚ
  risk_dollars : ℚ
  deriving DecidableEq, Repr

def MIN_CONFIDENCE : ℚ := 7/10

def MAX_RISK_PER_TRADE : ℚ := 1/50

def MAX_POSITION_SIZE : ℚ := 1/5

def MIN_RISK_REWARD : ℚ := 2

def MAX_CONCURRENT_POSITIONS : Nat := 5

def MAX_PORTFOLIO_DRAWDOWN : ℚ := 3/20

structure RiskMetrics where
  risk_reward : ℚ
  risk_dollars : ℚ
  position_size_dollars : ℚ
  position_size_pct : ℚ
  deriving DecidableEq, Repr

/-- Embedding of `RiskManager._calculate_risk_metrics`.  The source branches
on `signal_type.upper() == 'BUY'` with every other type taking the short
branch; shares are bought up to the 2 percent risk budget, the dollar size is
capped at 20 percent of the portfolio, and the percentage is derived last. -/
def calculate_risk_metrics (stype : SignalType) (entry_price target_price stop_loss : ℚ)
    (port : PortfolioState) : RiskMetrics :=
  let risk_d := if stype = SignalType.BUY then entry_price - stop_loss
    else stop_loss - entry_price
  let reward_d := if stype = SignalType.BUY then target_price - entry_price
    else entry_price - target_price
  let rr := if risk_d > 0 then reward_d / risk_d else 0
  let rdollars := port.portfolio_value * MAX_RISK_PER_TRADE
  let psd := if risk_d > 0 then (rdollars / risk_d) * entry_price else 0
  let max_position_dollars := port.portfolio_value * MAX_POSITION_SIZE
  let capped := min psd max_position_dollars
  { risk_reward := rr, risk_dollars := rdollars, position_size_dollars := capped,
    position_size_pct := capped / port.portfolio_value }

/-- Embedding of `RiskManager._validate_price_levels`: BUY requires
`stop_loss < entry < target`, SELL requires `target < entry < stop_loss`,
any other signal type passes through. -/
def validate_price_levels (stype : SignalType) (entry_price target_price stop_loss : ℚ) : Bool :=
  match stype with
  | SignalType.BUY => stop_loss < entry_price ∧ entry_price < target_price
  | SignalType.SELL => target_price < entry_price ∧ entry_price < stop_loss
  | SignalType.HOLD => true

/-- A result rejected before risk metrics are computed: metrics keep their
dataclass defaults of zero. -/
def failResult (r : RejectionReason) : RiskValidationResult :=
  { passed := false, rejection_reason := some r, position_size_pct := 0,
    position_size_dollars := 0, risk_reward := 0, risk_dollars := 0 }

/-- A result rejected after risk metrics were computed: the metrics stay on
the result, as in the source where the stages mutate one result object. -/
def failWith (r : RejectionReason) (m : RiskMetrics) : RiskValidationResult :=
  { passed := false, rejection_reason := some r, position_size_pct := m.position_size_pct,
    position_size_dollars := m.position_size_dollars, risk_reward := m.risk_reward,
    risk_dollars := m.risk_dollars }

/-- The accepted result carrying the computed metrics. -/
def passWith (m : RiskMetrics) : RiskValidationResult :=
  { passed := true, rejection_reason := none, position_size_pct := m.position_size_pct,
    position_size_dollars := m.position_size_dollars, risk_reward := m.risk_reward,
    risk_dollars := m.risk_dollars }

/-- Embedding of `RiskManager.validate`: the ordered chain of stages.  Stage 1
(`_validate_required_fields`) rejects a `None` in any of the six required
fields, a confidence outside `[0, 1]`, or a non-positive price, always with
reason `MISSING_REQUIRED_FIELDS`; then the confidence gate, the price-level
check, metric computation, the risk/reward gate, the position-size cap and
the portfolio constraints run in source order, each short-circuiting. -/
def validate (signal : SignalValidationRequest) (port : PortfolioState) : RiskValidationResult :=
  match signal.ticker, signal.signal_type, signal.confidence, signal.entry_price,
      signal.target_price, signal.stop_loss with
  | some _, some stype, some confidence, some entry_price, some target_price, some stop_loss =>
    if confidence < 0 ∨ confidence > 1 then failResult RejectionReason.MISSING_REQUIRED_FIELDS
    else if entry_price ≤ 0 ∨ target_price ≤ 0 ∨ stop_loss ≤ 0 then
      failResult RejectionReason.MISSING_REQUIRED_FIELDS
    else if confidence < MIN_CONFIDENCE then failResult RejectionReason.CONFIDENCE_TOO_LOW
    else if ! validate_price_levels stype entry_price target_price stop_loss then
      failResult RejectionReason.INVALID_PRICE_LEVELS
    else
      let m := calculate_risk_metrics stype entry_price target_price stop_loss port
      if m.risk_reward < MIN_RISK_REWARD then failWith RejectionReason.RISK_REWARD_UNFAVORABLE m
      else if m.position_size_pct > MAX_POSITION_SIZE then
        failWith RejectionReason.POSITION_TOO_LARGE m
      else if port.current_positions ≥ MAX_CONCURRENT_POSITIONS then
        failWith RejectionReason.MAX_POSITIONS_EXCEEDED m
      else if port.portfolio_drawdown_pct > MAX_PORTFOLIO_DRAWDOWN * 100 then
        failWith RejectionReason.PORTFOLIO_IN_DRAWDOWN m
      else passWith m
  | _, _, _, _, _, _ => failResult RejectionReason.MISSING_REQUIRED_FIELDS

/-! ### Backtest engine (`backend/ml/backtesting/backtest_engine.py`) -/

structure BacktestConfig where
  initial_capital : ℚ
  max_position_size : ℚ
  transaction_cost : ℚ
  risk_free_rate : ℚ
  min_confidence : ℚ
  lookback_days : Nat
  rebalance_days : Nat
  deriving DecidableEq, Repr

/-- The `BacktestConfig()` dataclass defaults. -/
def defaultConfig : BacktestConfig :=
  { initial_capital := 100000, max_position_size := 1/5, transaction_cost := 1/1000,
    risk_free_rate := 1/50, min_confidence := 1/2, lookback_days := 30, rebalance_days := 5 }

structure PredRow where
  date : Nat
  ticker : String
  signal : Int
  confidence : ℚ
  deriving DecidableEq, Repr

structure PriceRow where
  date : Nat
  ticker : String
  close_price : ℚ
  deriving DecidableEq, Repr

/-- A pandas DataFrame of predictions: its set of column names plus rows.
A row always carries a confidence slot; it is meaningful only when the
"confidence" column is present, otherwise validation fills the default. -/
structure PredFrame where
  cols : List String
  rows : List PredRow
  deriving DecidableEq, Repr

structure PriceFrame where
  cols : List String
  rows : List PriceRow
  deriving DecidableEq, Repr

structure Position where
  entry_date : Nat
  entry_price : ℚ
  signal : Int
  shares : ℚ
  confidence : ℚ
  position_value : ℚ
  deriving DecidableEq, Repr

structure TradeRecord where
  entry_date : Nat
  entry_price : ℚ
  entry_signal : Int
  exit_date : Nat
  exit_price : ℚ
  shares : ℚ
  duration_days : Int
  pnl : ℚ
  pnl_pct : ℚ
  ticker : String
  deriving DecidableEq, Repr

/-- The engine's mutable attributes (`self.positions`, `self.trades`,
`self.equity_curve`, `self.dates`) together with the `current_capital`
local that `run` threads through its helpers. -/
structure EngineState where
  positions : List (String × Position)
  trades : List TradeRecord
  equity_curve : List ℚ
  dates : List Nat
  capital : ℚ
  deriving DecidableEq, Repr

/-- Embedding of `BacktestEngine._validate_predictions`: required columns in
source order, the signal-domain check, and the confidence default of 0.6
when the column is absent. -/
def validate_predictions (pf : PredFrame) : Except String (List PredRow) :=
  if ! pf.cols.contains "date" then Except.error "Missing required column: date"
  else if ! pf.cols.contains "ticker" then Except.error "Missing required column: ticker"
  else if ! pf.cols.contains "signal" then Except.error "Missing required column: signal"
  else if ! pf.rows.all (fun r => r.signal = -1 ∨ r.signal = 0 ∨ r.signal = 1) then
    Except.error "Signal must be -1 (short), 0 (hold), or 1 (long)"
  else if ! pf.cols.contains "confidence" then
    Except.ok (pf.rows.map (fun r => { r with confidence := 3/5 }))
  else Except.ok pf.rows

/-- Embedding of `BacktestEngine._validate_prices`: required columns in
source order, then the positivity check on every close price. -/
def validate_prices (qf : PriceFrame) : Except String (List PriceRow) :=
  if ! qf.cols.contains "date" then Except.error "Missing required column: date"
  else if ! qf.cols.contains "ticker" then Except.error "Missing required column: ticker"
  else if ! qf.cols.contains "close_price" then Except.error "Missing required column: close_price"
  else if qf.rows.any (fun r => r.close_price ≤ 0) then Except.error "Prices must be positive"
  else Except.ok qf.rows

/-- Embedding of `BacktestEngine._calculate_position_size`: base allocation
scaled by `(confidence - 0.5) * 2`, then capped above by the base and below
by zero.  The `signal` argument is unused, exactly as in the source. -/
def calculate_position_size (cfg : BacktestConfig) (capital : ℚ) (signal : Int)
    (confidence : ℚ) : ℚ :=
  let base_size := capital * cfg.max_position_size
  let confidence_factor := (confidence - 1/2) * 2
  let position_size := base_size * confidence_factor
  let clipped := min position_size (capital * cfg.max_position_size)
  max clipped 0

/-- Embedding of `BacktestEngine._close_position`: a no-op when the ticker is
not in the open map; otherwise the direction-dependent P&L with the
transaction cost on both legs, the trade record, the capital increment, and
the removal of the entry from the open map. -/
def close_position (cfg : BacktestConfig) (ticker : String) (exit_date : Nat) (exit_price : ℚ)
    (st : EngineState) : EngineState :=
  match st.positions.find? (fun kv => kv.1 == ticker) with
  | none => st
  | some kv =>
    let p := kv.2
    let pnl :=
      if p.signal = 1 then
        p.shares * exit_price * (1 - cfg.transaction_cost)
          - p.shares * p.entry_price * (1 + cfg.transaction_cost)
      else
        p.shares * p.entry_price * (1 - cfg.transaction_cost)
          - p.shares * exit_price * (1 + cfg.transaction_cost)
    let pnl_pct := if p.position_value > 0 then pnl / p.position_value else 0
    let trade : TradeRecord :=
      { entry_date := p.entry_date, entry_price := p.entry_price, entry_signal := p.signal,
        exit_date := exit_date, exit_price := exit_price, shares := p.shares,
        duration_days := (exit_date : Int) - (p.entry_date : Int), pnl := pnl,
        pnl_pct := pnl_pct, ticker := ticker }
    { st with
      trades := st.trades ++ [trade],
      capital := st.capital + pnl,
      positions := st.positions.eraseP (fun kv2 => kv2.1 == ticker) }

/-- Stable insertion step for `sortByDate`: a row moves left past rows with a
strictly larger date only, so rows with equal dates keep their input order. -/
def insertByDate (a : PriceRow) : List PriceRow → List PriceRow
  | [] => [a]
  | b :: l => if b.date < a.date then b :: insertByDate a l else a :: b :: l

/-- The `sort_values('date')` of `_update_positions`, modelled as a stable
insertion sort so that the subsequent `iloc[-1]` picks the last row carrying
the maximum date, in input order among ties. -/
def sortByDate : List PriceRow → List PriceRow
  | [] => []
  | a :: l => insertByDate a (sortByDate l)

/-- Loop body of `BacktestEngine._update_positions` over a snapshot of the
open-position map: the latest at-or-before price is the last row of the
sort by date of this ticker's historical rows, and the position is
closed there when today's signal flips or is neutral. -/
def update_positions_aux (cfg : BacktestConfig) (current_date : Nat)
    (day_predictions : List PredRow) (historical_prices : List PriceRow) :
    List (String × Position) → EngineState → EngineState
  | [], st => st
  | kv :: rest, st =>
    let ticker_prices :=
      sortByDate (historical_prices.filter (fun r => r.ticker == kv.1))
    let st2 :=
      match ticker_prices.getLast? with
      | none => st
      | some last_row =>
        match day_predictions.find? (fun r => r.ticker == kv.1) with
        | none => st
        | some pred =>
          if pred.signal ≠ kv.2.signal ∨ pred.signal = 0 then
            close_position cfg kv.1 current_date last_row.close_price st
          else st
    update_positions_aux cfg current_date day_predictions historical_prices rest st2

/-- Embedding of `BacktestEngine._update_positions`. -/
def update_positions (cfg : BacktestConfig) (current_date : Nat)
    (day_predictions : List PredRow) (historical_prices : List PriceRow)
    (st : EngineState) : EngineState :=
  update_positions_aux cfg current_date day_predictions historical_prices st.positions st

/-- Loop body of `BacktestEngine._execute_signals` over the day's prediction
rows: skip weak, neutral, already-held or priceless signals, size the
position, deduct the entry transaction cost and append the new position. -/
def execute_signals_aux (cfg : BacktestConfig) (current_date : Nat)
    (current_prices : List PriceRow) : List PredRow → EngineState → EngineState
  | [], st => st
  | row :: rest, st =>
    let st2 :=
      if row.confidence < cfg.min_confidence then st
      else if row.signal = 0 then st
      else if (st.positions.find? (fun kv => kv.1 == row.ticker)).isSome then st
      else
        match current_prices.find? (fun r => r.ticker == row.ticker) with
        | none => st
        | some price_row =>
          let entry_price := price_row.close_price
          let position_value := calculate_position_size cfg st.capital row.signal row.confidence
          if position_value ≤ 0 then st
          else
            let shares := position_value / entry_price
            let cost := position_value * cfg.transaction_cost
            { st with
              capital := st.capital - cost,
              positions := st.positions ++
                [(row.ticker,
                  { entry_date := current_date, entry_price := entry_price, signal := row.signal,
                    shares := shares, confidence := row.confidence,
                    position_value := position_value })] }
    execute_signals_aux cfg current_date current_prices rest st2

/-- Embedding of `BacktestEngine._execute_signals`. -/
def execute_signals (cfg : BacktestConfig) (current_date : Nat)
    (day_predictions : List PredRow) (current_prices : List PriceRow)
    (st : EngineState) : EngineState :=
  execute_signals_aux cfg current_date current_prices day_predictions st

/-- Loop body of `BacktestEngine._close_all_positions` over a snapshot of the
open-position map: a ticker with no row in the supplied price table is
skipped and stays open. -/
def close_all_positions_aux (cfg : BacktestConfig) (exit_date : Nat)
    (prices : List PriceRow) : List (String × Position) → EngineState → EngineState
  | [], st => st
  | kv :: rest, st =>
    let st2 :=
      match prices.find? (fun r => r.ticker == kv.1) with
      | none => st
      | some row => close_position cfg kv.1 exit_date row.close_price st
    close_all_positions_aux cfg exit_date prices rest st2

/-- Embedding of `BacktestEngine._close_all_positions`. -/
def close_all_positions (cfg : BacktestConfig) (exit_date : Nat) (prices : List PriceRow)
    (st : EngineState) : EngineState :=
  close_all_positions_aux cfg exit_date prices st.positions st

/-- One iteration of the day loop in `BacktestEngine.run`: today's
predictions, prices restricted to dates at or before today for the closing
decision, the rebalance-gated opening decision on today's price rows, then
the equity and date samples are appended. -/
def day_step (cfg : BacktestConfig) (day_idx : Nat) (current_date : Nat)
    (predictions : List PredRow) (prices : List PriceRow) (st : EngineState) : EngineState :=
  let day_predictions := predictions.filter (fun r => r.date == current_date)
  let historical_prices := prices.filter (fun r => r.date ≤ current_date)
  let st1 := update_positions cfg current_date day_predictions historical_prices st
  let st2 :=
    if day_idx % cfg.rebalance_days = 0 then
      execute_signals cfg current_date day_predictions
        (prices.filter (fun r => r.date == current_date)) st1
    else st1
  { st2 with
    equity_curve := st2.equity_curve ++ [st2.capital],
    dates := st2.dates ++ [current_date] }

/-- The chronological day loop of `BacktestEngine.run`. -/
def process_days (cfg : BacktestConfig) (predictions : List PredRow)
    (prices : List PriceRow) : Nat → List Nat → EngineState → EngineState
  | _, [], st => st
  | day_idx, d :: ds, st =>
    process_days cfg predictions prices (day_idx + 1) ds
      (day_step cfg day_idx d predictions prices st)

/-- Insertion step for `sortNat`. -/
def insertNat (a : Nat) : List Nat → List Nat
  | [] => [a]
  | b :: l => if b ≤ a then b :: insertNat a l else a :: b :: l

/-- Ascending insertion sort on naturals, for `sorted(...)`. -/
def sortNat : List Nat → List Nat
  | [] => []
  | a :: l => insertNat a (sortNat l)

/-- The distinct dates of `predictions['date'].unique()`.  Which duplicate is
kept is irrelevant because the result is sorted immediately afterwards. -/
def dedupDates : List Nat → List Nat
  | [] => []
  | a :: l =>
    let r := dedupDates l
    if a ∈ r then r else a :: r

/-- Embedding of `sorted(predictions['date'].unique())`. -/
def unique_dates (predictions : List PredRow) : List Nat :=
  sortNat (dedupDates (predictions.map PredRow.date))

/-- The freshly initialised engine attributes at the top of `run`. -/
def initState (cfg : BacktestConfig) : EngineState :=
  { positions := [], trades := [], equity_curve := [cfg.initial_capital], dates := [],
    capital := cfg.initial_capital }

/-- The body of `BacktestEngine.run` after both input frames validated: the
`unique_dates[-1]` indexing (an `IndexError` when the prediction table is
empty), the end-of-run sweep over the rows dated exactly the last prediction
date, and the `iloc[0]` of the baseline comparison (an `IndexError` when the
price table is empty). -/
def run_validated (cfg : BacktestConfig) (predictions : List PredRow)
    (prices : List PriceRow) : Except String EngineState :=
  let dates := unique_dates predictions
  let st1 := process_days cfg predictions prices 0 dates (initState cfg)
  match dates.getLast? with
  | none => Except.error "index -1 is out of bounds"
  | some last_date =>
    let last_prices := prices.filter (fun r => r.date == last_date)
    let st2 := close_all_positions cfg last_date last_prices st1
    if prices.isEmpty then Except.error "single positional indexer is out-of-bounds"
    else Except.ok st2

/-- Embedding of `BacktestEngine.run`: eager validation of both frames, then
the simulation over the sorted distinct prediction dates. -/
def run (cfg : BacktestConfig) (pf : PredFrame) (qf : PriceFrame) :
    Except String EngineState :=
  match validate_predictions pf with
  | Except.error e => Except.error e
  | Except.ok predictions =>
    match validate_prices qf with
    | Except.error e => Except.error e
    | Except.ok prices => run_validated cfg predictions prices

/-! ### Concrete scenarios used as witnesses and counterexamples -/

/-- Scenario 2 of the spec: the accepted BUY request. -/
def reqC9 : SignalValidationRequest :=
  { ticker := some "AAPL", signal_type := some SignalType.BUY, confidence := some (4/5),
    entry_price := some 100, target_price := some 110, stop_loss := some 95 }

def portC9 : PortfolioState :=
  { portfolio_value := 20000, current_positions := 2, portfolio_drawdown_pct := 5 }

/-- A request with confidence below the minimum and a missing required field. -/
def reqC2 : SignalValidationRequest :=
  { ticker := some "AAPL", signal_type := some SignalType.BUY, confidence := some (1/2),
    entry_price := some 100, target_price := none, stop_loss := some 95 }

/-- Scenario 4 of the spec: the SELL request with target above entry. -/
def reqC6 : SignalValidationRequest :=
  { ticker := some "TSLA", signal_type := some SignalType.SELL, confidence := some (4/5),
    entry_price := some 300, target_price := some 310, stop_loss := some 320 }

/-! ### Concrete engine inputs -/

/-- Ticker "B" gets a long signal on day 1 and never appears again; ticker
"A" only appears on day 2, the final day, so "B" has no final-date price. -/
def predsC3 : PredFrame :=
  { cols := ["date", "ticker", "signal", "confidence"],
    rows := [{ date := 1, ticker := "B", signal := 1, confidence := 3/5 },
             { date := 2, ticker := "A", signal := 0, confidence := 3/5 }] }

def pricesC3 : PriceFrame :=
  { cols := ["date", "ticker", "close_price"],
    rows := [{ date := 1, ticker := "B", close_price := 100 },
             { date := 2, ticker := "A", close_price := 50 }] }

/-- The position the engine opens for "B" on day 1 of `predsC3`. -/
def posC3 : Position :=
  { entry_date := 1, entry_price := 100, signal := 1, shares := 40,
    confidence := 3/5, position_value := 4000 }

/-- The engine state `run defaultConfig predsC3 pricesC3` returns. -/
def stC3 : EngineState :=
  { positions := [("B", posC3)], trades := [], equity_curve := [100000, 99996, 99996],
    dates := [1, 2], capital := 99996 }

/-- Price tables agreeing at dates up to 1; the second holds a future row. -/
def pW1 : List PriceRow := [{ date := 1, ticker := "A", close_price := 100 }]

def pW2 : List PriceRow :=
  [{ date := 1, ticker := "A", close_price := 100 },
   { date := 2, ticker := "A", close_price := 999 }]

def predsW : List PredRow := [{ date := 1, ticker := "A", signal := 1, confidence := 3/5 }]

/-- A prediction frame missing its required "signal" column. -/
def pfBad : PredFrame := { cols := ["date", "ticker"], rows := [] }

/-- The claim's notion of a structurally malformed prediction table: a
missing required column or a signal outside the domain. -/
def predMalformed (pf : PredFrame) : Prop :=
  pf.cols.contains "date" = false ∨ pf.cols.contains "ticker" = false ∨
    pf.cols.contains "signal" = false ∨
    ∃ r ∈ pf.rows, r.signal ≠ -1 ∧ r.signal ≠ 0 ∧ r.signal ≠ 1

/-- The claim's notion of a structurally malformed price table: a missing
required column or a non-positive close price. -/
def priceMalformed (qf : PriceFrame) : Prop :=
  qf.cols.contains "date" = false ∨ qf.cols.contains "ticker" = false ∨
    qf.cols.contains "close_price" = false ∨ ∃ r ∈ qf.rows, r.close_price ≤ 0

/-- The concrete long position used to witness the P&L theorem. -/
def posC5 : Position :=
  { entry_date := 0, entry_price := 10, signal := 1, shares := 5, confidence := 1,
    position_value := 50 }

def stC5 : EngineState :=
  { positions := [("X", posC5)], trades := [], equity_curve := [1000], dates := [],
    capital := 1000 }

/-! ### Risk manager claims -/

/-- C9: the BUY request with entry 100, stop 95, target 110 and confidence 0.80
against a portfolio of value 20000 with 2 positions and 5 percent drawdown is
accepted, with position size at most 20 percent of the portfolio and at most
400 dollars at risk. -/
theorem scenario_buy_accepted :
    (validate reqC9 portC9).passed = true ∧
    (validate reqC9 portC9).position_size_pct ≤ MAX_POSITION_SIZE ∧
    (validate reqC9 portC9).risk_dollars ≤ 400 := by
  norm_num [validate, reqC9, portC9, validate_price_levels, calculate_risk_metrics,
    failResult, failWith, passWith, MIN_CONFIDENCE, MAX_RISK_PER_TRADE, MAX_POSITION_SIZE,
    MIN_RISK_REWARD, MAX_CONCURRENT_POSITIONS, MAX_PORTFOLIO_DRAWDOWN]

/-- C2 is false as stated: this request has confidence 1/2, strictly below the
0.70 minimum, yet `validate` rejects it with `MISSING_REQUIRED_FIELDS` (its
target price is absent), not with `CONFIDENCE_TOO_LOW`, because the
required-fields stage runs before the confidence gate. -/
theorem confidence_low_missing_field_cex :
    reqC2.confidence = some (1/2) ∧ (1/2 : ℚ) < MIN_CONFIDENCE ∧
    (validate reqC2 portC9).passed = false ∧
    (validate reqC2 portC9).rejection_reason = some RejectionReason.MISSING_REQUIRED_FIELDS ∧
    (validate reqC2 portC9).rejection_reason ≠ some RejectionReason.CONFIDENCE_TOO_LOW := by
  norm_num [validate, reqC2, portC9, failResult, MIN_CONFIDENCE]
  decide

/-- C2 (amended): for every request that passes the required-fields stage (all
six fields present, confidence within [0, 1], all prices positive) and has
confidence strictly below the 0.70 minimum, `validate` returns passed = false
with rejection reason `CONFIDENCE_TOO_LOW`, regardless of the remaining field
values and of the portfolio state. -/
theorem confidence_gate_rejects (signal : SignalValidationRequest) (port : PortfolioState)
    (tk : String) (stype : SignalType) (c e t sl : ℚ)
    (htk : signal.ticker = some tk) (hst : signal.signal_type = some stype)
    (hc : signal.confidence = some c) (he : signal.entry_price = some e)
    (ht : signal.target_price = some t) (hsl : signal.stop_loss = some sl)
    (hc0 : 0 ≤ c) (hc1 : c ≤ 1) (hep : 0 < e) (htp : 0 < t) (hslp : 0 < sl)
    (hlow : c < MIN_CONFIDENCE) :
    (validate signal port).passed = false ∧
    (validate signal port).rejection_reason = some RejectionReason.CONFIDENCE_TOO_LOW := by
  have h1 : ¬ (c < 0 ∨ c > 1) := by
    push_neg
    exact ⟨hc0, hc1⟩
  have h2 : ¬ (e ≤ 0 ∨ t ≤ 0 ∨ sl ≤ 0) := by
    push_neg
    exact ⟨hep, htp, hslp⟩
  unfold validate
  rw [htk, hst, hc, he, ht, hsl]
  dsimp only
  rw [if_neg h1, if_neg h2, if_pos hlow]
  exact ⟨rfl, rfl⟩

theorem confidence_gate_rejects_witness :
    (0 : ℚ) ≤ 1/2 ∧ (1/2 : ℚ) < MIN_CONFIDENCE ∧
    (validate { reqC2 with target_price := some 110 } portC9).passed = false ∧
    (validate { reqC2 with target_price := some 110 } portC9).rejection_reason =
      some RejectionReason.CONFIDENCE_TOO_LOW := by
  refine ⟨by norm_num, by norm_num [MIN_CONFIDENCE], ?_, ?_⟩
  · exact (confidence_gate_rejects { reqC2 with target_price := some 110 } portC9 "AAPL"
      SignalType.BUY (1/2) 100 110 95 rfl rfl rfl rfl rfl rfl (by norm_num) (by norm_num)
      (by norm_num) (by norm_num) (by norm_num) (by norm_num [MIN_CONFIDENCE])).1
  · exact (confidence_gate_rejects { reqC2 with target_price := some 110 } portC9 "AAPL"
      SignalType.BUY (1/2) 100 110 95 rfl rfl rfl rfl rfl rfl (by norm_num) (by norm_num)
      (by norm_num) (by norm_num) (by norm_num) (by norm_num [MIN_CONFIDENCE])).2

/-- C6: a request that passes the field-validity and confidence stages but
violates the direction's price ordering (BUY needs stop < entry < target,
SELL needs target < entry < stop) is rejected with `INVALID_PRICE_LEVELS`. -/
theorem invalid_price_levels_rejection (signal : SignalValidationRequest)
    (port : PortfolioState) (tk : String) (stype : SignalType) (c e t sl : ℚ)
    (htk : signal.ticker = some tk) (hst : signal.signal_type = some stype)
    (hc : signal.confidence = some c) (he : signal.entry_price = some e)
    (ht : signal.target_price = some t) (hsl : signal.stop_loss = some sl)
    (hc0 : 0 ≤ c) (hc1 : c ≤ 1) (hep : 0 < e) (htp : 0 < t) (hslp : 0 < sl)
    (hconf : MIN_CONFIDENCE ≤ c)
    (hbad : (stype = SignalType.BUY ∧ ¬ (sl < e ∧ e < t)) ∨
      (stype = SignalType.SELL ∧ ¬ (t < e ∧ e < sl))) :
    (validate signal port).passed = false ∧
    (validate signal port).rejection_reason = some RejectionReason.INVALID_PRICE_LEVELS := by
  have h1 : ¬ (c < 0 ∨ c > 1) := by
    push_neg
    exact ⟨hc0, hc1⟩
  have h2 : ¬ (e ≤ 0 ∨ t ≤ 0 ∨ sl ≤ 0) := by
    push_neg
    exact ⟨hep, htp, hslp⟩
  have h4 : (! validate_price_levels stype e t sl) = true := by
    rcases hbad with ⟨hb, hno⟩ | ⟨hb, hno⟩ <;> subst hb <;>
      simp [validate_price_levels, hno]
  unfold validate
  rw [htk, hst, hc, he, ht, hsl]
  dsimp only
  rw [if_neg h1, if_neg h2, if_neg (not_lt.2 hconf), if_pos h4]
  exact ⟨rfl, rfl⟩

theorem invalid_price_levels_witness :
    ((300 : ℚ) < 310) ∧
    (validate reqC6 portC9).passed = false ∧
    (validate reqC6 portC9).rejection_reason = some RejectionReason.INVALID_PRICE_LEVELS := by
  refine ⟨by norm_num, ?_, ?_⟩
  · exact (invalid_price_levels_rejection reqC6 portC9 "TSLA" SignalType.SELL (4/5) 300 310 320
      rfl rfl rfl rfl rfl rfl (by norm_num) (by norm_num) (by norm_num) (by norm_num)
      (by norm_num) (by norm_num [MIN_CONFIDENCE]) (Or.inr ⟨rfl, by norm_num⟩)).1
  · exact (invalid_price_levels_rejection reqC6 portC9 "TSLA" SignalType.SELL (4/5) 300 310 320
      rfl rfl rfl rfl rfl rfl (by norm_num) (by norm_num) (by norm_num) (by norm_num)
      (by norm_num) (by norm_num [MIN_CONFIDENCE]) (Or.inr ⟨rfl, by norm_num⟩)).2

/-- Helper for C7: once `portfolio_value` is positive, the computed position
size percentage can never exceed the 20 percent cap, because the dollar size
is capped at `portfolio_value * MAX_POSITION_SIZE` before the percentage is
derived. -/
theorem metrics_pct_le (stype : SignalType) (e t sl : ℚ) (port : PortfolioState)
    (hpv : 0 < port.portfolio_value) :
    (calculate_risk_metrics stype e t sl port).position_size_pct ≤ MAX_POSITION_SIZE := by
  simp only [calculate_risk_metrics]
  exact le_trans ((div_le_div_iff_of_pos_right hpv).2 (min_le_right _ _))
    (le_of_eq (mul_div_cancel_left₀ _ (ne_of_gt hpv)))

/-- C7: for every request and every portfolio with positive value, the risk
metrics put `position_size_pct` at or below `MAX_POSITION_SIZE`, and
`validate` therefore never returns `POSITION_TOO_LARGE`: the sizing-cap
rejection branch is unreachable under exact arithmetic. -/
theorem position_cap_unreachable (signal : SignalValidationRequest) (port : PortfolioState)
    (stype : SignalType) (e t sl : ℚ) (hpv : 0 < port.portfolio_value) :
    (calculate_risk_metrics stype e t sl port).position_size_pct ≤ MAX_POSITION_SIZE ∧
    (validate signal port).rejection_reason ≠ some RejectionReason.POSITION_TOO_LARGE := by
  refine ⟨metrics_pct_le stype e t sl port hpv, ?_⟩
  obtain ⟨tk0, st0, c0, e0, t0, sl0⟩ := signal
  cases tk0 with
  | none => simp [validate, failResult]
  | some tk =>
  cases st0 with
  | none => simp [validate, failResult]
  | some stype0 =>
  cases c0 with
  | none => simp [validate, failResult]
  | some c1 =>
  cases e0 with
  | none => simp [validate, failResult]
  | some e1 =>
  cases t0 with
  | none => simp [validate, failResult]
  | some t1 =>
  cases sl0 with
  | none => simp [validate, failResult]
  | some sl1 =>
  simp only [validate]
  split_ifs with h1 h2 h3 h4 h5 h6 h7 h8 <;>
    first
      | exact absurd h6 (not_lt.2 (metrics_pct_le stype0 e1 t1 sl1 port hpv))
      | simp [failResult, failWith, passWith]

theorem position_cap_unreachable_witness :
    (0 : ℚ) < portC9.portfolio_value ∧
    (calculate_risk_metrics SignalType.BUY 100 110 95 portC9).position_size_pct ≤
      MAX_POSITION_SIZE ∧
    (validate reqC9 portC9).rejection_reason ≠ some RejectionReason.POSITION_TOO_LARGE := by
  refine ⟨by norm_num [portC9], ?_, ?_⟩
  · exact (position_cap_unreachable reqC9 portC9 SignalType.BUY 100 110 95
      (by norm_num [portC9])).1
  · exact (position_cap_unreachable reqC9 portC9 SignalType.BUY 100 110 95
      (by norm_num [portC9])).2

/-- C4: for nonnegative capital (and a nonnegative configured position
fraction), the confidence-weighted position size equals
`clamp(base * (confidence - 0.5) * 2, 0, base)` with
`base = capital * max_position_size`; confidence 0.5 yields 0 and
confidence 1.0 yields exactly `base`. -/
theorem position_size_clamped (cfg : BacktestConfig) (c x : ℚ) (s : Int)
    (hc : 0 ≤ c) (hm : 0 ≤ cfg.max_position_size) :
    calculate_position_size cfg c s x =
      max 0 (min (c * cfg.max_position_size * ((x - 1/2) * 2))
        (c * cfg.max_position_size)) ∧
    calculate_position_size cfg c s (1/2) = 0 ∧
    calculate_position_size cfg c s 1 = c * cfg.max_position_size := by
  have hb : 0 ≤ c * cfg.max_position_size := mul_nonneg hc hm
  refine ⟨?_, ?_, ?_⟩
  · show max (min (c * cfg.max_position_size * ((x - 1/2) * 2))
      (c * cfg.max_position_size)) 0 =
      max 0 (min (c * cfg.max_position_size * ((x - 1/2) * 2)) (c * cfg.max_position_size))
    exact max_comm _ _
  · show max (min (c * cfg.max_position_size * ((1/2 - 1/2) * 2))
      (c * cfg.max_position_size)) 0 = 0
    rw [show ((1 : ℚ)/2 - 1/2) * 2 = 0 by norm_num, mul_zero, min_eq_left hb, max_self]
  · show max (min (c * cfg.max_position_size * ((1 - 1/2) * 2))
      (c * cfg.max_position_size)) 0 = c * cfg.max_position_size
    rw [show ((1 : ℚ) - 1/2) * 2 = 1 by norm_num, mul_one, min_self, max_eq_left hb]

theorem position_size_clamped_witness :
    (0 : ℚ) ≤ 1000 ∧ (0 : ℚ) ≤ defaultConfig.max_position_size ∧
    calculate_position_size defaultConfig 1000 1 (4/5) =
      max 0 (min (1000 * defaultConfig.max_position_size * ((4/5 - 1/2) * 2))
        (1000 * defaultConfig.max_position_size)) ∧
    calculate_position_size defaultConfig 1000 1 (1/2) = 0 ∧
    calculate_position_size defaultConfig 1000 1 1 = 1000 * defaultConfig.max_position_size := by
  refine ⟨by norm_num, by norm_num [defaultConfig], ?_, ?_, ?_⟩
  · exact (position_size_clamped defaultConfig 1000 (4/5) 1 (by norm_num)
      (by norm_num [defaultConfig])).1
  · exact (position_size_clamped defaultConfig 1000 (4/5) 1 (by norm_num)
      (by norm_num [defaultConfig])).2.1
  · exact (position_size_clamped defaultConfig 1000 (4/5) 1 (by norm_num)
      (by norm_num [defaultConfig])).2.2

/-! ### Backtest engine claims -/

/-- Helper for C1: rows dated exactly `d` are determined by the rows dated at
or before `d`. -/
theorem filter_eq_of_filter_le {p1 p2 : List PriceRow} {d : Nat}
    (h : p1.filter (fun r => r.date ≤ d) = p2.filter (fun r => r.date ≤ d)) :
    p1.filter (fun r => r.date == d) = p2.filter (fun r => r.date == d) := by
  have key : ∀ l : List PriceRow,
      l.filter (fun r => r.date == d) =
        (l.filter (fun r => r.date ≤ d)).filter (fun r => r.date == d) := by
    intro l
    rw [List.filter_filter]
    refine List.filter_congr ?_
    intro x _
    by_cases hx : x.date = d
    · simp [hx]
    · simp [hx]
  rw [key p1, key p2, h]

/-- C1 (no-lookahead): the whole simulated day `d` — the position-closing
decision, which reads prices filtered to dates at or before `d`, and the
position-opening decision, which reads prices filtered to dates equal to
`d` — is unchanged under any replacement of the price table that preserves
the rows dated at or before `d`; hence no decision for date `d` reads a
price row dated after `d`. -/
theorem no_lookahead_day_step (cfg : BacktestConfig) (day_idx d : Nat)
    (predictions : List PredRow) (p1 p2 : List PriceRow) (st : EngineState)
    (h : p1.filter (fun r => r.date ≤ d) = p2.filter (fun r => r.date ≤ d)) :
    day_step cfg day_idx d predictions p1 st = day_step cfg day_idx d predictions p2 st := by
  have h2 := filter_eq_of_filter_le h
  simp only [day_step, h, h2]

theorem no_lookahead_day_step_witness :
    pW1.filter (fun r => r.date ≤ 1) = pW2.filter (fun r => r.date ≤ 1) ∧
    day_step defaultConfig 0 1 predsW pW1 (initState defaultConfig) =
      day_step defaultConfig 0 1 predsW pW2 (initState defaultConfig) := by
  constructor
  · simp [pW1, pW2]
  · exact no_lookahead_day_step defaultConfig 0 1 predsW pW1 pW2 (initState defaultConfig)
      (by simp [pW1, pW2])

/-- Closing a position never touches the recorded equity samples. -/
theorem close_position_equity (cfg : BacktestConfig) (t : String) (d : Nat) (xp : ℚ)
    (st : EngineState) : (close_position cfg t d xp st).equity_curve = st.equity_curve := by
  unfold close_position
  split
  · rfl
  · rfl

theorem update_positions_aux_equity (cfg : BacktestConfig) (cd : Nat) (dp : List PredRow)
    (hp : List PriceRow) :
    ∀ (snap : List (String × Position)) (st : EngineState),
      (update_positions_aux cfg cd dp hp snap st).equity_curve = st.equity_curve := by
  intro snap
  induction snap with
  | nil => intro st; rfl
  | cons kv rest ih =>
    intro st
    simp only [update_positions_aux]
    rw [ih]
    split
    · rfl
    · split
      · rfl
      · split
        · exact close_position_equity _ _ _ _ _
        · rfl

theorem execute_signals_aux_equity (cfg : BacktestConfig) (cd : Nat) (cp : List PriceRow) :
    ∀ (rows : List PredRow) (st : EngineState),
      (execute_signals_aux cfg cd cp rows st).equity_curve = st.equity_curve := by
  intro rows
  induction rows with
  | nil => intro st; rfl
  | cons row rest ih =>
    intro st
    simp only [execute_signals_aux]
    rw [ih]
    split
    · rfl
    · split
      · rfl
      · split
        · rfl
        · split
          · rfl
          · split
            · rfl
            · rfl

theorem close_all_positions_aux_equity (cfg : BacktestConfig) (d : Nat)
    (ps : List PriceRow) :
    ∀ (snap : List (String × Position)) (st : EngineState),
      (close_all_positions_aux cfg d ps snap st).equity_curve = st.equity_curve := by
  intro snap
  induction snap with
  | nil => intro st; rfl
  | cons kv rest ih =>
    intro st
    simp only [close_all_positions_aux]
    rw [ih]
    split
    · rfl
    · exact close_position_equity _ _ _ _ _

/-- Each day of the loop appends exactly one equity sample. -/
theorem day_step_equity_len (cfg : BacktestConfig) (i d : Nat) (preds : List PredRow)
    (ps : List PriceRow) (st : EngineState) :
    (day_step cfg i d preds ps st).equity_curve.length = st.equity_curve.length + 1 := by
  simp only [day_step]
  by_cases hreb : i % cfg.rebalance_days = 0
  · simp [hreb, execute_signals, execute_signals_aux_equity, update_positions,
      update_positions_aux_equity]
  · simp [hreb, update_positions, update_positions_aux_equity]

theorem process_days_equity_len (cfg : BacktestConfig) (preds : List PredRow)
    (ps : List PriceRow) :
    ∀ (ds : List Nat) (i : Nat) (st : EngineState),
      (process_days cfg preds ps i ds st).equity_curve.length =
        st.equity_curve.length + ds.length := by
  intro ds
  induction ds with
  | nil => intro i st; rfl
  | cons d rest ih =>
    intro i st
    simp only [process_days]
    rw [ih, day_step_equity_len]
    simp only [List.length_cons]
    omega

/-- C8: a successful `run` returns an equity curve whose length is the number
of distinct simulated dates plus one (the pre-run initial sample), and this
is maintained through the day loop: every iteration adds exactly one sample,
so after any prefix of days the curve holds the initial sample plus one
sample per processed day. -/
theorem equity_curve_length_spec (cfg : BacktestConfig) (pf : PredFrame) (qf : PriceFrame)
    (rows : List PredRow) (st : EngineState)
    (hv : validate_predictions pf = Except.ok rows)
    (hrun : run cfg pf qf = Except.ok st) :
    st.equity_curve.length = (unique_dates rows).length + 1 ∧
    ∀ (prices : List PriceRow) (i : Nat) (ds : List Nat) (st0 : EngineState),
      (process_days cfg rows prices i ds st0).equity_curve.length =
        st0.equity_curve.length + ds.length := by
  refine ⟨?_, fun prices i ds st0 => process_days_equity_len cfg rows prices ds i st0⟩
  cases hq : validate_prices qf with
  | error e => simp [run, hv, hq] at hrun
  | ok prices =>
    have hrv : run_validated cfg rows prices = Except.ok st := by
      simpa [run, hv, hq] using hrun
    cases hl : (unique_dates rows).getLast? with
    | none => simp [run_validated, hl] at hrv
    | some last_date =>
      simp only [run_validated, hl] at hrv
      split at hrv
      · exact absurd hrv (by simp)
      · have hst := (Except.ok.injEq _ _).mp hrv
        rw [← hst, close_all_positions, close_all_positions_aux_equity,
          process_days_equity_len]
        simp [initState]
        omega

theorem equity_curve_length_witness :
    validate_predictions predsC3 = Except.ok predsC3.rows ∧
    run defaultConfig predsC3 pricesC3 = Except.ok stC3 ∧
    stC3.equity_curve.length = (unique_dates predsC3.rows).length + 1 := by
  have hv : validate_predictions predsC3 = Except.ok predsC3.rows := by
    norm_num [validate_predictions, predsC3, List.contains, List.all]
  have hrun : run defaultConfig predsC3 pricesC3 = Except.ok stC3 := by
    norm_num [run, run_validated, validate_predictions, validate_prices, predsC3, pricesC3,
      unique_dates, sortNat, insertNat, dedupDates, process_days, day_step, update_positions,
      update_positions_aux, sortByDate, insertByDate, execute_signals, execute_signals_aux,
      close_all_positions, close_all_positions_aux, close_position, calculate_position_size,
      initState, defaultConfig, stC3, posC3, List.find?, List.filter, List.contains, List.all,
      List.any, List.isEmpty, List.getLast?,
      show ("A" == "B") = false from rfl, show ("B" == "A") = false from rfl,
      show ("A" == "A") = true from rfl, show ("B" == "B") = true from rfl]
  exact ⟨hv, hrun,
    (equity_curve_length_spec defaultConfig predsC3 pricesC3 predsC3.rows stC3 hv hrun).1⟩

theorem validate_predictions_malformed (pf : PredFrame) (h : predMalformed pf) :
    ∃ e, validate_predictions pf = Except.error e := by
  unfold validate_predictions
  split_ifs with h1 h2 h3 h4 h5
  · exact ⟨_, rfl⟩
  · exact ⟨_, rfl⟩
  · exact ⟨_, rfl⟩
  · exact ⟨_, rfl⟩
  all_goals
    exfalso
    rcases h with hd | ht | hs | ⟨r, hr, hs1, hs2, hs3⟩
    · exact h1 (by rw [hd]; rfl)
    · exact h2 (by rw [ht]; rfl)
    · exact h3 (by rw [hs]; rfl)
    · have hall : pf.rows.all (fun r => decide (r.signal = -1 ∨ r.signal = 0 ∨ r.signal = 1))
          = true := by
        revert h4
        cases pf.rows.all (fun r => decide (r.signal = -1 ∨ r.signal = 0 ∨ r.signal = 1)) <;>
          simp
      have hmem := List.all_eq_true.mp hall r hr
      rcases of_decide_eq_true hmem with h | h | h
      · exact hs1 h
      · exact hs2 h
      · exact hs3 h

theorem validate_prices_malformed (qf : PriceFrame) (h : priceMalformed qf) :
    ∃ e, validate_prices qf = Except.error e := by
  unfold validate_prices
  split_ifs with h1 h2 h3 h4
  · exact ⟨_, rfl⟩
  · exact ⟨_, rfl⟩
  · exact ⟨_, rfl⟩
  · exact ⟨_, rfl⟩
  · exfalso
    rcases h with hd | ht | hs | ⟨r, hr, hle⟩
    · exact h1 (by rw [hd]; rfl)
    · exact h2 (by rw [ht]; rfl)
    · exact h3 (by rw [hs]; rfl)
    · exact h4 (List.any_eq_true.mpr ⟨r, hr, decide_eq_true hle⟩)

/-- C10: a structurally malformed input — a missing required column, a signal
outside the domain, or a non-positive close price — makes `run` abort with an
error before any simulation step: no result state (hence no position, trade
or post-initial equity sample) is ever produced. -/
theorem malformed_input_aborts (cfg : BacktestConfig) (pf : PredFrame) (qf : PriceFrame)
    (h : predMalformed pf ∨ priceMalformed qf) :
    (run cfg pf qf).toOption = none := by
  rcases h with hp | hq
  · obtain ⟨e, he⟩ := validate_predictions_malformed pf hp
    simp [run, he, Except.toOption]
  · cases hv : validate_predictions pf with
    | error e => simp [run, hv, Except.toOption]
    | ok rows =>
      obtain ⟨e, he⟩ := validate_prices_malformed qf hq
      simp [run, hv, he, Except.toOption]

theorem malformed_input_aborts_witness :
    predMalformed pfBad ∧ (run defaultConfig pfBad pricesC3).toOption = none := by
  have hbad : predMalformed pfBad := Or.inr (Or.inr (Or.inl (by decide)))
  exact ⟨hbad, malformed_input_aborts defaultConfig pfBad pricesC3 (Or.inl hbad)⟩

/-! ### Association-list lemmas for the open-position map -/

/-- After erasing the (at most one) entry for a key, no entry for that key
can be found. -/
theorem find?_eraseP_eq_none (t : String) :
    ∀ l : List (String × Position),
      l.countP (fun kv => kv.1 == t) ≤ 1 →
      (l.eraseP (fun kv => kv.1 == t)).find? (fun kv => kv.1 == t) = none := by
  intro l
  induction l with
  | nil => intro _; rfl
  | cons a l ih =>
    intro hc
    rw [List.countP_cons] at hc
    cases ha : (a.1 == t) with
    | true =>
      have hc1 : l.countP (fun kv => kv.1 == t) + 1 ≤ 1 := by
        simpa [ha] using hc
      have hzero : l.countP (fun kv => kv.1 == t) = 0 := by omega
      simp only [List.eraseP_cons, ha, cond_true]
      refine List.find?_eq_none.mpr ?_
      intro x hx
      simpa using List.countP_eq_zero.mp hzero x hx
    | false =>
      have hc2 : l.countP (fun kv => kv.1 == t) ≤ 1 := by
        simpa [ha] using hc
      simp [List.eraseP_cons, List.find?_cons, ha, ih hc2]

/-- Erasing one key leaves lookups of any other key unchanged. -/
theorem find?_eraseP_of_ne (t u : String) (hne : u ≠ t) :
    ∀ l : List (String × Position),
      (l.eraseP (fun kv => kv.1 == t)).find? (fun kv => kv.1 == u) =
        l.find? (fun kv => kv.1 == u) := by
  intro l
  induction l with
  | nil => rfl
  | cons a l ih =>
    cases ha : (a.1 == t) with
    | true =>
      have hat : a.1 = t := by simpa using ha
      have hau : (a.1 == u) = false := by
        rw [hat]
        exact beq_eq_false_iff_ne.mpr (Ne.symm hne)
      simp [List.eraseP_cons, List.find?_cons, ha, hau]
    | false =>
      cases hau : (a.1 == u) with
      | true => simp [List.eraseP_cons, List.find?_cons, ha, hau]
      | false => simp [List.eraseP_cons, List.find?_cons, ha, hau, ih]

/-- Characterisation of `_close_position` on a ticker that is open: its
direction-dependent P&L, the appended trade record, the capital increment
and the erasure of the map entry. -/
theorem close_position_closed (cfg : BacktestConfig) (t : String) (d : Nat) (xp : ℚ)
    (st : EngineState) (pos : Position)
    (hfind : st.positions.find? (fun kv => kv.1 == t) = some (t, pos)) :
    (close_position cfg t d xp st).positions =
      st.positions.eraseP (fun kv => kv.1 == t) ∧
    (close_position cfg t d xp st).trades = st.trades ++
      [{ entry_date := pos.entry_date, entry_price := pos.entry_price,
         entry_signal := pos.signal, exit_date := d, exit_price := xp, shares := pos.shares,
         duration_days := (d : Int) - (pos.entry_date : Int),
         pnl := if pos.signal = 1 then
             pos.shares * xp * (1 - cfg.transaction_cost)
               - pos.shares * pos.entry_price * (1 + cfg.transaction_cost)
           else
             pos.shares * pos.entry_price * (1 - cfg.transaction_cost)
               - pos.shares * xp * (1 + cfg.transaction_cost),
         pnl_pct := if pos.position_value > 0 then
             (if pos.signal = 1 then
               pos.shares * xp * (1 - cfg.transaction_cost)
                 - pos.shares * pos.entry_price * (1 + cfg.transaction_cost)
             else
               pos.shares * pos.entry_price * (1 - cfg.transaction_cost)
                 - pos.shares * xp * (1 + cfg.transaction_cost)) / pos.position_value
           else 0,
         ticker := t }] ∧
    (close_position cfg t d xp st).capital = st.capital +
      (if pos.signal = 1 then
        pos.shares * xp * (1 - cfg.transaction_cost)
          - pos.shares * pos.entry_price * (1 + cfg.transaction_cost)
      else
        pos.shares * pos.entry_price * (1 - cfg.transaction_cost)
          - pos.shares * xp * (1 + cfg.transaction_cost)) := by
  simp [close_position, hfind]

/-- Closing an open position records a trade for its ticker at the given exit
date and exit price. -/
theorem close_position_trade_mem (cfg : BacktestConfig) (t : String) (d : Nat) (xp : ℚ)
    (st : EngineState) (pos : Position)
    (hfind : st.positions.find? (fun kv => kv.1 == t) = some (t, pos)) :
    ∃ tr ∈ (close_position cfg t d xp st).trades,
      tr.ticker = t ∧ tr.exit_date = d ∧ tr.exit_price = xp := by
  obtain ⟨_, htr2, _⟩ := close_position_closed cfg t d xp st pos hfind
  rw [htr2]
  exact ⟨_, List.mem_append_right _ (List.mem_cons_self _ _), rfl, rfl, rfl⟩

/-- Closing one ticker leaves lookups of any other ticker unchanged. -/
theorem close_position_other (cfg : BacktestConfig) (u t : String) (d : Nat) (xp : ℚ)
    (st : EngineState) (hne : t ≠ u) :
    (close_position cfg u d xp st).positions.find? (fun kv => kv.1 == t) =
      st.positions.find? (fun kv => kv.1 == t) := by
  unfold close_position
  split
  · rfl
  · exact find?_eraseP_of_ne u t hne st.positions

/-- Closing a position only ever appends to the trade log. -/
theorem close_position_trades_mono (cfg : BacktestConfig) (u : String) (d : Nat) (xp : ℚ)
    (st : EngineState) :
    ∃ l, (close_position cfg u d xp st).trades = st.trades ++ l := by
  unfold close_position
  split
  · exact ⟨[], (List.append_nil _).symm⟩
  · exact ⟨[_], rfl⟩

/-- Closing a position only ever removes entries from the open map. -/
theorem close_position_positions_sublist (cfg : BacktestConfig) (u : String) (d : Nat)
    (xp : ℚ) (st : EngineState) :
    (close_position cfg u d xp st).positions.Sublist st.positions := by
  unfold close_position
  split
  · exact List.Sublist.refl _
  · exact List.eraseP_sublist _

/-- The end-of-run sweep only ever appends to the trade log. -/
theorem close_all_aux_trades_mono (cfg : BacktestConfig) (d : Nat) (ps : List PriceRow) :
    ∀ (snap : List (String × Position)) (st : EngineState),
      ∃ l, (close_all_positions_aux cfg d ps snap st).trades = st.trades ++ l := by
  intro snap
  induction snap with
  | nil => intro st; exact ⟨[], (List.append_nil _).symm⟩
  | cons kv rest ih =>
    intro st
    simp only [close_all_positions_aux]
    cases hf : ps.find? (fun r => r.ticker == kv.1) with
    | none =>
      simp only [hf]
      exact ih st
    | some row =>
      simp only [hf]
      obtain ⟨l1, h1⟩ := close_position_trades_mono cfg kv.1 d row.close_price st
      obtain ⟨l2, h2⟩ := ih (close_position cfg kv.1 d row.close_price st)
      exact ⟨l1 ++ l2, by rw [h2, h1, List.append_assoc]⟩

/-- Sweeping a snapshot that does not mention ticker `t` leaves the lookup of
`t` unchanged. -/
theorem close_all_aux_other (cfg : BacktestConfig) (d : Nat) (ps : List PriceRow)
    (t : String) :
    ∀ (snap : List (String × Position)) (st : EngineState),
      (∀ kv ∈ snap, kv.1 ≠ t) →
      (close_all_positions_aux cfg d ps snap st).positions.find? (fun kv => kv.1 == t) =
        st.positions.find? (fun kv => kv.1 == t) := by
  intro snap
  induction snap with
  | nil => intro st _; rfl
  | cons kv rest ih =>
    intro st hsnap
    have hkt : kv.1 ≠ t := hsnap kv (List.mem_cons_self kv rest)
    have hrest : ∀ kv2 ∈ rest, kv2.1 ≠ t := fun kv2 hm => hsnap kv2 (List.mem_cons_of_mem kv hm)
    simp only [close_all_positions_aux]
    cases hf : ps.find? (fun r => r.ticker == kv.1) with
    | none =>
      simp only [hf]
      exact ih st hrest
    | some row =>
      simp only [hf]
      rw [ih (close_position cfg kv.1 d row.close_price st) hrest]
      exact close_position_other cfg kv.1 t d row.close_price st (Ne.symm hkt)

/-- Main induction for C3: while sweeping a snapshot with distinct keys that
contains ticker `t`, a final-date price row for `t` forces the position to be
closed at exactly that row's price (entry gone, trade appended), and the
absence of such a row leaves the position open untouched. -/
theorem close_all_aux_spec (cfg : BacktestConfig) (d : Nat) (ps : List PriceRow)
    (t : String) (pos : Position) :
    ∀ (snap : List (String × Position)) (st : EngineState),
      (snap.map Prod.fst).Nodup →
      t ∈ snap.map Prod.fst →
      st.positions.find? (fun kv => kv.1 == t) = some (t, pos) →
      st.positions.countP (fun kv => kv.1 == t) ≤ 1 →
      (∀ row, ps.find? (fun r => r.ticker == t) = some row →
        (close_all_positions_aux cfg d ps snap st).positions.find?
          (fun kv => kv.1 == t) = none ∧
        ∃ tr ∈ (close_all_positions_aux cfg d ps snap st).trades,
          tr.ticker = t ∧ tr.exit_date = d ∧ tr.exit_price = row.close_price) ∧
      (ps.find? (fun r => r.ticker == t) = none →
        (close_all_positions_aux cfg d ps snap st).positions.find?
          (fun kv => kv.1 == t) = some (t, pos)) := by
  intro snap
  induction snap with
  | nil =>
    intro st hnd hmem
    exact absurd hmem (by simp)
  | cons kv rest ih =>
    intro st hnd hmem hfind hcount
    have hnd2 : (rest.map Prod.fst).Nodup := (List.nodup_cons.mp (by simpa using hnd)).2
    have hhead : kv.1 ∉ rest.map Prod.fst := (List.nodup_cons.mp (by simpa using hnd)).1
    rcases eq_or_ne kv.1 t with hkt | hkt
    · subst hkt
      have hrest : ∀ kv2 ∈ rest, kv2.1 ≠ kv.1 := by
        intro kv2 hm2 heq
        exact hhead (heq ▸ List.mem_map_of_mem Prod.fst hm2)
      constructor
      · intro row hrow
        simp only [close_all_positions_aux, hrow]
        obtain ⟨hpos2, _, _⟩ :=
          close_position_closed cfg kv.1 d row.close_price st pos hfind
        constructor
        · rw [close_all_aux_other cfg d ps kv.1 rest _ hrest, hpos2]
          exact find?_eraseP_eq_none kv.1 st.positions hcount
        · obtain ⟨tr, htrmem, htrt, htrd, htrp⟩ :=
            close_position_trade_mem cfg kv.1 d row.close_price st pos hfind
          obtain ⟨l2, h2⟩ := close_all_aux_trades_mono cfg d ps rest
            (close_position cfg kv.1 d row.close_price st)
          exact ⟨tr, by rw [h2]; exact List.mem_append_left _ htrmem, htrt, htrd, htrp⟩
      · intro hnone
        simp only [close_all_positions_aux, hnone]
        rw [close_all_aux_other cfg d ps kv.1 rest st hrest]
        exact hfind
    · have hmem2 : t ∈ rest.map Prod.fst := by
        rw [List.map_cons] at hmem
        rcases List.mem_cons.mp hmem with h | h
        · exact absurd h.symm hkt
        · exact h
      simp only [close_all_positions_aux]
      cases hf : ps.find? (fun r => r.ticker == kv.1) with
      | none =>
        simp only [hf]
        exact ih st hnd2 hmem2 hfind hcount
      | some row =>
        simp only [hf]
        have hfind2 : (close_position cfg kv.1 d row.close_price st).positions.find?
            (fun kv2 => kv2.1 == t) = some (t, pos) := by
          rw [close_position_other cfg kv.1 t d row.close_price st (fun h => hkt h.symm)]
          exact hfind
        have hcount2 : (close_position cfg kv.1 d row.close_price st).positions.countP
            (fun kv2 => kv2.1 == t) ≤ 1 :=
          le_trans (List.Sublist.countP_le _
            (close_position_positions_sublist cfg kv.1 d row.close_price st)) hcount
        exact ih (close_position cfg kv.1 d row.close_price st) hnd2 hmem2 hfind2 hcount2

/-- Keys pairwise distinct means at most one entry per key. -/
theorem countP_key_le_one (t : String) :
    ∀ l : List (String × Position), (l.map Prod.fst).Nodup →
      l.countP (fun kv => kv.1 == t) ≤ 1 := by
  intro l
  induction l with
  | nil => intro _; simp
  | cons a l ih =>
    intro hnd
    have h1 : a.1 ∉ l.map Prod.fst := (List.nodup_cons.mp (by simpa using hnd)).1
    have h2 : (l.map Prod.fst).Nodup := (List.nodup_cons.mp (by simpa using hnd)).2
    rw [List.countP_cons]
    cases ha : (a.1 == t) with
    | false => simpa [ha] using ih h2
    | true =>
      have hat : a.1 = t := by simpa using ha
      have hzero : l.countP (fun kv => kv.1 == t) = 0 := by
        refine List.countP_eq_zero.mpr ?_
        intro kv hkv hbeq
        have hkvt : kv.1 = t := by simpa using hbeq
        refine h1 ?_
        rw [hat, ← hkvt]
        exact List.mem_map_of_mem Prod.fst hkv
      simp [ha, hzero]

/-- C3 (amended): in the end-of-run sweep, every open position whose ticker
has a price row dated exactly the final date is forcibly closed at the first
such row's close price, removing it from the open map and appending a trade
record; a position whose ticker has no price row at the final date is left
open unchanged — so the returned open-position map need not be empty and an
opened position without a final-date price row gets no trade record. -/
theorem close_all_positions_final_price (cfg : BacktestConfig) (d : Nat)
    (last_prices : List PriceRow) (st : EngineState) (t : String) (pos : Position)
    (hnd : (st.positions.map Prod.fst).Nodup)
    (hopen : st.positions.find? (fun kv => kv.1 == t) = some (t, pos)) :
    (∀ row, last_prices.find? (fun r => r.ticker == t) = some row →
      (close_all_positions cfg d last_prices st).positions.find?
        (fun kv => kv.1 == t) = none ∧
      ∃ tr ∈ (close_all_positions cfg d last_prices st).trades,
        tr.ticker = t ∧ tr.exit_date = d ∧ tr.exit_price = row.close_price) ∧
    (last_prices.find? (fun r => r.ticker == t) = none →
      (close_all_positions cfg d last_prices st).positions.find?
        (fun kv => kv.1 == t) = some (t, pos)) := by
  have hmem : t ∈ st.positions.map Prod.fst := by
    have h1 := List.mem_of_find?_eq_some hopen
    exact List.mem_map_of_mem Prod.fst h1
  have hcount := countP_key_le_one t st.positions hnd
  exact close_all_aux_spec cfg d last_prices t pos st.positions st hnd hmem hopen hcount

/-- Evaluation of the whole backtest on `predsC3`/`pricesC3`: a long position
on "B" is opened on day 1, never closed (no later prediction for "B", and no
price row for "B" on the final date), and remains in the returned state with
an empty trade log. -/
theorem run_predsC3_eval : run defaultConfig predsC3 pricesC3 = Except.ok stC3 := by
  norm_num [run, run_validated, validate_predictions, validate_prices, predsC3, pricesC3,
    unique_dates, sortNat, insertNat, dedupDates, process_days, day_step, update_positions,
    update_positions_aux, sortByDate, insertByDate, execute_signals, execute_signals_aux,
    close_all_positions, close_all_positions_aux, close_position, calculate_position_size,
    initState, defaultConfig, stC3, posC3, List.find?, List.filter, List.contains, List.all,
    List.any, List.isEmpty, List.getLast?,
    show ("A" == "B") = false from rfl, show ("B" == "A") = false from rfl,
    show ("A" == "A") = true from rfl, show ("B" == "B") = true from rfl]

/-- C3 is false as stated: on `predsC3`/`pricesC3` the run returns with the
open-position map still holding ticker "B" (its position was opened on day 1
but "B" has no price row dated the final date, so the end-of-run sweep skips
it), and the trade log is empty although a position was opened. -/
theorem end_of_run_open_position_cex :
    (run defaultConfig predsC3 pricesC3).map
      (fun st => (st.positions.map Prod.fst, st.trades.length)) =
      Except.ok (["B"], 0) := by
  rw [run_predsC3_eval]
  rfl

theorem close_all_positions_final_price_witness :
    (stC3.positions.map Prod.fst).Nodup ∧
    stC3.positions.find? (fun kv => kv.1 == "B") = some ("B", posC3) ∧
    [({ date := 2, ticker := "A", close_price := 50 } : PriceRow)].find?
      (fun r => r.ticker == "B") = none ∧
    (close_all_positions defaultConfig 2
        [({ date := 2, ticker := "A", close_price := 50 } : PriceRow)] stC3).positions.find?
      (fun kv => kv.1 == "B") = some ("B", posC3) := by
  have hnd : (stC3.positions.map Prod.fst).Nodup := by simp [stC3]
  have hopen : stC3.positions.find? (fun kv => kv.1 == "B") = some ("B", posC3) := rfl
  have hnone : [({ date := 2, ticker := "A", close_price := 50 } : PriceRow)].find?
      (fun r => r.ticker == "B") = none := rfl
  exact ⟨hnd, hopen, hnone,
    (close_all_positions_final_price defaultConfig 2 _ stC3 "B" posC3 hnd hopen).2 hnone⟩

/-- C5: closing an open position yields the direction-dependent P&L — long:
`shares * exit * (1 - cost) - shares * entry * (1 + cost)`; short:
`shares * entry * (1 - cost) - shares * exit * (1 + cost)` — records a trade
whose `pnl_pct` is `pnl / initial_position_value` when that value is positive
and 0 otherwise, increments capital by exactly the P&L, and removes the
position from the open map. -/
theorem close_position_pnl_spec (cfg : BacktestConfig) (t : String) (d : Nat) (xp : ℚ)
    (st : EngineState) (pos : Position)
    (hfind : st.positions.find? (fun kv => kv.1 == t) = some (t, pos))
    (hcount : st.positions.countP (fun kv => kv.1 == t) ≤ 1) :
    (pos.signal = 1 →
      (close_position cfg t d xp st).capital = st.capital +
        (pos.shares * xp * (1 - cfg.transaction_cost)
          - pos.shares * pos.entry_price * (1 + cfg.transaction_cost))) ∧
    (pos.signal = -1 →
      (close_position cfg t d xp st).capital = st.capital +
        (pos.shares * pos.entry_price * (1 - cfg.transaction_cost)
          - pos.shares * xp * (1 + cfg.transaction_cost))) ∧
    (close_position cfg t d xp st).trades = st.trades ++
      [{ entry_date := pos.entry_date, entry_price := pos.entry_price,
         entry_signal := pos.signal, exit_date := d, exit_price := xp, shares := pos.shares,
         duration_days := (d : Int) - (pos.entry_date : Int),
         pnl := if pos.signal = 1 then
             pos.shares * xp * (1 - cfg.transaction_cost)
               - pos.shares * pos.entry_price * (1 + cfg.transaction_cost)
           else
             pos.shares * pos.entry_price * (1 - cfg.transaction_cost)
               - pos.shares * xp * (1 + cfg.transaction_cost),
         pnl_pct := if pos.position_value > 0 then
             (if pos.signal = 1 then
               pos.shares * xp * (1 - cfg.transaction_cost)
                 - pos.shares * pos.entry_price * (1 + cfg.transaction_cost)
             else
               pos.shares * pos.entry_price * (1 - cfg.transaction_cost)
                 - pos.shares * xp * (1 + cfg.transaction_cost)) / pos.position_value
           else 0,
         ticker := t }] ∧
    (close_position cfg t d xp st).positions.find? (fun kv => kv.1 == t) = none := by
  obtain ⟨hpos2, htr2, hcap2⟩ := close_position_closed cfg t d xp st pos hfind
  refine ⟨?_, ?_, htr2, ?_⟩
  · intro hsig
    simp [hcap2, hsig]
  · intro hsig
    simp [hcap2, hsig]
  · rw [hpos2]
    exact find?_eraseP_eq_none t st.positions hcount

theorem close_position_pnl_spec_witness :
    stC5.positions.find? (fun kv => kv.1 == "X") = some ("X", posC5) ∧
    stC5.positions.countP (fun kv => kv.1 == "X") ≤ 1 ∧
    (posC5.signal = 1 →
      (close_position defaultConfig "X" 3 12 stC5).capital = stC5.capital +
        (posC5.shares * 12 * (1 - defaultConfig.transaction_cost)
          - posC5.shares * posC5.entry_price * (1 + defaultConfig.transaction_cost))) ∧
    (close_position defaultConfig "X" 3 12 stC5).positions.find?
      (fun kv => kv.1 == "X") = none := by
  have hfind : stC5.positions.find? (fun kv => kv.1 == "X") = some ("X", posC5) := rfl
  have hcount : stC5.positions.countP (fun kv => kv.1 == "X") ≤ 1 := by
    simp [stC5]
  refine ⟨hfind, hcount, ?_, ?_⟩
  · exact (close_position_pnl_spec defaultConfig "X" 3 12 stC5 posC5 hfind hcount).1
  · exact (close_position_pnl_spec defaultConfig "X" 3 12 stC5 posC5 hfind hcount).2.2.2

end TFT
